import Mathlib

/-!
# Verification of the Klader core (src/app.py)

Shallow embedding of the two pieces of logic in the repository:

* the ledger extractor `parse_excel_for_person` (rows of spreadsheet
  cells, positional field access, reference-field normalization by
  three regex substitutions, numeric and date coercion, rounding), and
* the requisition lifecycle (`CODE_ALPHABET`,
  `generate_requisition_code`, the `approve_requisition` and
  `reject_requisition` endpoints over a persisted store).

Conventions of the embedding:

* Python strings are Lean `String`s; the character-level functions
  (`pyUpper`, `pyLower`, `pyIsSpace`, stripping) model Python string
  semantics on the ASCII range, which is the range the regular
  expressions of the source address (`[A-Z]`, `\d`, ASCII whitespace).
* Python floats are modelled as exact rationals; `round2` is round
  half to even at two decimals, which is what `round(x, 2)` computes
  on exactly representable values.
* A raised exception is `Except.error`; `pd.isna` cells are
  `Cell.empty`.
* The pandas DataFrame is the list of its data rows (the header row,
  consumed by `pd.read_excel(..., header=0)`, carries no data).
-/

/-! ## Character classes and Python string primitives -/

/-- `[A-Z]` of the source regexes. -/
def isUpperAZ (c : Char) : Bool := 'A' ≤ c && c ≤ 'Z'

/-- `\d` of the source regexes, on the ASCII range. -/
def isDigit09 (c : Char) : Bool := '0' ≤ c && c ≤ '9'

/-- `\s` of the source regexes and the characters removed by
`str.strip()`, on the ASCII range. -/
def pyIsSpace (c : Char) : Bool :=
  c == ' ' || c == '\t' || c == '\n' || c == '\r' || c == '\x0b' ||
  c == '\x0c' || c == '\x1c' || c == '\x1d' || c == '\x1e' || c == '\x1f'

/-- The class `[/\s]` of the first suffix-stripping regex. -/
def isCls (c : Char) : Bool := c == '/' || pyIsSpace c

/-- Leading-whitespace removal (the left half of `str.strip()`). -/
def lstripL (l : List Char) : List Char := l.dropWhile pyIsSpace

/-- Trailing-whitespace removal (the right half of `str.strip()`). -/
def rstripL (l : List Char) : List Char :=
  (l.reverse.dropWhile pyIsSpace).reverse

/-- Python `str.strip()` on the character list. -/
def stripL (l : List Char) : List Char := rstripL (lstripL l)

/-- Python `str.strip()`. -/
def pyStripS (s : String) : String := ⟨stripL s.data⟩

/-- Python `str.upper()`, modelled on the ASCII range. -/
def pyUpper (s : String) : String := ⟨s.data.map Char.toUpper⟩

/-- Python `str.lower()`, modelled on the ASCII range. -/
def pyLower (s : String) : String := ⟨s.data.map Char.toLower⟩

/-- Does the second list start with the first? -/
def startsWithL : List Char → List Char → Bool
  | [], _ => true
  | _ :: _, [] => false
  | a :: as, b :: bs => a == b && startsWithL as bs

/-- Substring containment, Python `needle in hay`. -/
def containsSubL (needle : List Char) : List Char → Bool
  | [] => needle.isEmpty
  | a :: rest => startsWithL needle (a :: rest) || containsSubL needle rest

/-- Python `needle in hay` on strings. -/
def strIn (needle hay : String) : Bool := containsSubL needle.data hay.data

/-! ## The reference-field normalization (src/app.py lines 407-413)

`kundref_clean = re.sub(r'^[A-Z]{0,2}\d+\s*', '', kundref).strip()`
`kundref_clean = re.sub(r'[/\s]+\d{3,}.*$', '', kundref_clean).strip()`
`kundref_clean = re.sub(r'\s+[A-Z]{0,2}\d{6,}.*$', '', kundref_clean).strip()`
-/

/-- After the mandatory first digit is found, `\d+\s*` consumes the
digit run and the following whitespace run (both greedy). -/
def eatDigitsSpaces (l : List Char) : List Char :=
  (l.dropWhile isDigit09).dropWhile pyIsSpace

/-- `re.sub(r'^[A-Z]{0,2}\d+\s*', '', s)`: anchored at the start, at
most one match; with backtracking the pattern matches exactly when 0,
1 or 2 uppercase letters are followed by a digit. -/
def sub1 (s : List Char) : List Char :=
  match s with
  | [] => []
  | a :: rest =>
    if isUpperAZ a then
      match rest with
      | [] => s
      | b :: rest2 =>
        if isUpperAZ b then
          match rest2 with
          | c :: _ => if isDigit09 c then eatDigitsSpaces rest2 else s
          | [] => s
        else if isDigit09 b then eatDigitsSpaces rest
        else s
    else if isDigit09 a then eatDigitsSpaces s
    else s

/-- Three leading ASCII digits. -/
def threeDig : List Char → Bool
  | a :: b :: c :: _ => isDigit09 a && isDigit09 b && isDigit09 c
  | _ => false

/-- Six leading ASCII digits. -/
def sixDigits : List Char → Bool
  | a :: b :: c :: d :: e :: f :: _ =>
    isDigit09 a && isDigit09 b && isDigit09 c && isDigit09 d &&
    isDigit09 e && isDigit09 f
  | _ => false

/-- `[A-Z]{0,2}\d{6,}` with backtracking: 0, 1 or 2 uppercase letters
followed by six digits. -/
def checkS3 (l : List Char) : Bool :=
  match l with
  | a :: b :: rest =>
    (isUpperAZ a && isUpperAZ b && sixDigits rest) ||
    (isUpperAZ a && sixDigits (b :: rest)) || sixDigits l
  | _ => sixDigits l

/-- The common shape of the two suffix-stripping substitutions
`re.sub(r'CLS+CHK.*$', '', s)`: a run of `cls` characters followed by
a `chk`-accepted tail deletes everything from the run to the end of
the string; the leftmost such position wins.  Backtracking inside the
run is vacuous because no `cls` character can begin a `chk` match
(digits and uppercase letters are not in either class), so only the
maximal run needs to be inspected at each position. -/
def subG (cls : Char → Bool) (chk : List Char → Bool) : List Char → List Char
  | [] => []
  | a :: rest =>
    if cls a && chk (rest.dropWhile cls) then []
    else a :: subG cls chk rest

/-- Whether `subG cls chk` finds a match anywhere. -/
def hasMatchG (cls : Char → Bool) (chk : List Char → Bool) : List Char → Bool
  | [] => false
  | a :: rest =>
    (cls a && chk (rest.dropWhile cls)) || hasMatchG cls chk rest

/-- `re.sub(r'[/\s]+\d{3,}.*$', '', s)`. -/
def sub2 : List Char → List Char := subG isCls threeDig

/-- `re.sub(r'\s+[A-Z]{0,2}\d{6,}.*$', '', s)`. -/
def sub3 : List Char → List Char := subG pyIsSpace checkS3

/-- The full normalization of the `Kundref` field: the three
substitutions of src/app.py lines 409-412, each followed by
`.strip()`. -/
def normalizeRefL (l : List Char) : List Char :=
  stripL (sub3 (stripL (sub2 (stripL (sub1 l)))))

/-- The full normalization on strings (`kundref` to `kundref_clean`). -/
def normalizeRef (s : String) : String := ⟨normalizeRefL s.data⟩

/-! ## Rounding (Python `round(x, 2)`) -/

/-- Floor of a rational (numerator floor-divided by denominator). -/
def ratFloor (q : ℚ) : ℤ := q.num.fdiv q.den

/-- Addition of rationals, spelled out through `mkRat` so that it
evaluates inside `decide`; `ratAdd_eq` below identifies it with `+`. -/
def ratAdd (a b : ℚ) : ℚ :=
  mkRat (a.num * b.den + b.num * a.den) (a.den * b.den)

/-- Negation of a rational through `mkRat`; see `ratNeg_eq`. -/
def ratNeg (a : ℚ) : ℚ := mkRat (-a.num) a.den

/-- The integer `n` as a rational through `mkRat`; see `ratOfInt_eq`. -/
def ratOfInt (n : ℤ) : ℚ := mkRat n 1

/-- Round to the nearest integer, ties to even: the rounding mode of
Python `round`.  With `f := ⌊q⌋`, the fractional part `q - f` is
below, above or at `1/2` according as `q` is below, above or at
`f + 1/2 = (2f+1)/2`. -/
def roundHalfEven (q : ℚ) : ℤ :=
  let f := ratFloor q
  if q < mkRat (2 * f + 1) 2 then f
  else if mkRat (2 * f + 1) 2 < q then f + 1
  else if f % 2 = 0 then f else f + 1

/-- Python `round(x, 2)` on exact values: `q * 100` is
`mkRat (q.num * 100) q.den`, and the result is the rounded integer
over 100. -/
def round2 (q : ℚ) : ℚ := mkRat (roundHalfEven (mkRat (q.num * 100) q.den)) 100

/-! ## Cells and coercions -/

/-- One spreadsheet cell as pandas presents it to the loop:
`empty` is a missing value (`pd.notna` is false), `str` a text cell,
`num` a numeric cell (exact rational standing for the float), and
`date` a datetime cell carrying its `%Y-%m-%d` rendering. -/
inductive Cell
  | empty
  | str (s : String)
  | num (q : ℚ)
  | date (d : String)
deriving DecidableEq

/-- `pd.notna` on a cell. -/
def notna : Cell → Bool
  | .empty => false
  | _ => true

/-- Decimal rendering of a rational, standing in for Python
`str(float)`; exact only on integral values, which is the only place
the extraction lemmas rely on it. -/
def ratRepr (q : ℚ) : String :=
  if q.den = 1 then toString q.num ++ ".0"
  else toString q.num ++ "/" ++ toString q.den

/-- Python `str(cell)` (never applied to a datetime by the source:
those are formatted by `strftime` before `str` could see them). -/
def pyStr : Cell → String
  | .empty => "nan"
  | .str s => s
  | .num q => ratRepr q
  | .date d => d

/-- Value of an ASCII digit run. -/
def digitsValI (l : List Char) : Int :=
  l.foldl (fun a c => a * 10 + ((c.toNat : Int) - ('0'.toNat : Int))) 0

/-- Python `int(str)`: optional surrounding whitespace, optional sign,
then a non-empty digit run (underscore grouping and non-ASCII digits
are out of the modelled range). `none` is a raised `ValueError`. -/
def pyIntStr (s : String) : Option Int :=
  match stripL s.data with
  | '-' :: ds => if ds ≠ [] ∧ ds.all isDigit09 then some (-(digitsValI ds)) else none
  | '+' :: ds => if ds ≠ [] ∧ ds.all isDigit09 then some (digitsValI ds) else none
  | ds => if ds ≠ [] ∧ ds.all isDigit09 then some (digitsValI ds) else none

/-- Python `int(cell)` for a non-missing cell: floats truncate toward
zero, strings must parse as an integer literal, datetimes raise. -/
def pyInt : Cell → Option Int
  | .num q => some (q.num.tdiv q.den)
  | .str s => pyIntStr s
  | .date _ => none
  | .empty => none

/-- Python `float(str)` on plain decimal literals: optional
whitespace, optional sign, `ddd`, `ddd.ddd`, `.ddd` or `ddd.`
(exponents and the named values are out of the modelled range). -/
def pyFloatStr (s : String) : Option ℚ :=
  let body : List Char → Option ℚ := fun l =>
    let intPart := l.takeWhile (fun c => c != '.')
    match l.dropWhile (fun c => c != '.') with
    | [] => if l ≠ [] ∧ l.all isDigit09 then some (ratOfInt (digitsValI l)) else none
    | _ :: frac =>
      if (intPart ≠ [] ∨ frac ≠ []) ∧ intPart.all isDigit09 ∧ frac.all isDigit09 then
        some (ratAdd (ratOfInt (digitsValI intPart))
          (mkRat (digitsValI frac) (10 ^ frac.length)))
      else none
  match stripL s.data with
  | '-' :: ds => (body ds).map ratNeg
  | '+' :: ds => body ds
  | ds => body ds

/-- Python `float(cell)` for a non-missing cell. -/
def pyFloat : Cell → Option ℚ
  | .num q => some q
  | .str s => pyFloatStr s
  | .date _ => none
  | .empty => none

/-- src/app.py lines 425-431: the invoice-date field.  A datetime is
rendered `%Y-%m-%d`; a missing cell becomes `None`; otherwise
`str(fakturadatum) if fakturadatum else None` keys on Python
truthiness (empty string and zero are falsy). -/
def datumStr : Cell → Option String
  | .empty => none
  | .date d => some d
  | .str s => if s = "" then none else some s
  | .num q => if q = 0 then none else some (ratRepr q)

/-! ## The extraction (src/app.py `parse_excel_for_person`) -/

/-- One element of `result["inkop"]`. -/
structure Inkop where
  datum : Option String
  artikelnr : Option String
  beskrivning : String
  kvantitet : Int
  belopp : ℚ
deriving DecidableEq

/-- The result dict of `parse_excel_for_person`. -/
structure Report where
  namn : String
  total_belopp : ℚ
  inkop : List Inkop
deriving DecidableEq

/-- `person_name.upper().strip()` (src/app.py line 391). -/
def searchName (name : String) : String := pyStripS (pyUpper name)

/-- The raw `Kundref` text of a row: `str(row.iloc[4]) if
pd.notna(row.iloc[4]) else ""` (out-of-range is folded to `""` here;
`processRow` raises on it before this value could matter). -/
def rowRef (row : List Cell) : String :=
  match row.get? 4 with
  | some c => if notna c then pyStr c else ""
  | none => ""

/-- Whether a row's normalized uppercased reference contains the
search name (`search_name not in kundref_upper` is the skip test). -/
def rowMatches (row : List Cell) (search : String) : Bool :=
  strIn search (pyUpper (normalizeRef (rowRef row)))

/-- The amount the loop would coerce from column J (index 9) of a
row, with the missing-value default 0; used to state the totalling
invariant. -/
def rowRawBelopp (row : List Cell) : ℚ :=
  match row.get? 9 with
  | some c => if notna c then (pyFloat c).getD 0 else 0
  | none => 0

/-- Whether the reference field of a row is missing (`NaN` or not
present) or blank (whitespace only). -/
def blankRef (row : List Cell) : Bool :=
  match row.get? 4 with
  | none => true
  | some .empty => true
  | some (.str s) => s.data.all pyIsSpace
  | some _ => false

/-- The body of the row loop, src/app.py lines 403-444: positional
access in source order (4, 5, 6, 7, 8, 9, 11), skip on a failed name
match, coercion of quantity and amount with defaults only for missing
cells.  `Except.error` is a raised `IndexError`/`ValueError`; `.ok
none` is `continue`; `.ok (some (i, b))` appends `i` and adds the
unrounded `b` to the running total. -/
def processRow (row : List Cell) (search : String) :
    Except String (Option (Inkop × ℚ)) :=
  match row.get? 4 with
  | none => .error "IndexError"
  | some c4 =>
    let kundref := if notna c4 then pyStr c4 else ""
    if strIn search (pyUpper (normalizeRef kundref)) then
      match row.get? 5 with
      | none => .error "IndexError"
      | some c5 =>
        let artikelnr := if notna c5 then some (pyStr c5) else none
        match row.get? 6 with
        | none => .error "IndexError"
        | some c6 =>
          let ben1 := if notna c6 then pyStr c6 else ""
          match row.get? 7 with
          | none => .error "IndexError"
          | some c7 =>
            let ben2 := if notna c7 then pyStr c7 else ""
            match row.get? 8 with
            | none => .error "IndexError"
            | some c8 =>
              match (if notna c8 then pyInt c8 else some 1) with
              | none => .error "ValueError: invalid literal for int"
              | some kvantitet =>
                match row.get? 9 with
                | none => .error "IndexError"
                | some c9 =>
                  match (if notna c9 then pyFloat c9 else some 0) with
                  | none => .error "ValueError: could not convert to float"
                  | some belopp =>
                    match row.get? 11 with
                    | none => .error "IndexError"
                    | some c11 =>
                      .ok (some
                        ({ datum := datumStr c11,
                           artikelnr := artikelnr,
                           beskrivning := pyStripS (ben1 ++ " " ++ ben2),
                           kvantitet := kvantitet,
                           belopp := round2 belopp }, belopp))
    else .ok none

/-- The row loop: records in row order, the total accumulated on the
unrounded amounts, the first raised exception aborting everything. -/
def parseRowsAux (search : String) : List (List Cell) → Except String (List Inkop × ℚ)
  | [] => .ok ([], 0)
  | row :: rest =>
    match processRow row search with
    | .error e => .error e
    | .ok h =>
      match parseRowsAux search rest with
      | .error e => .error e
      | .ok (l, t) =>
        match h with
        | none => .ok (l, t)
        | some (i, b) => .ok (i :: l, ratAdd b t)

/-- src/app.py `parse_excel_for_person` on the parsed data rows:
builds the report for `person_name` or raises. -/
def parse_excel_for_person (rows : List (List Cell)) (person_name : String) :
    Except String Report :=
  match parseRowsAux (searchName person_name) rows with
  | .error e => .error e
  | .ok (l, t) => .ok { namn := person_name, total_belopp := round2 t, inkop := l }

/-! ## The requisition lifecycle -/

/-- A persisted `Requisition` row (src/app.py lines 94-106); the
timestamps are abstract ticks. -/
structure Requisition where
  code : String
  employee_name : String
  chef_name : Option String
  chef_email : Option String
  vill_kopa : Option String
  status : String
  request_date : Nat
  created_at : Nat
  decided_at : Option Nat
deriving DecidableEq

/-- What the two decision endpoints render: the not-found page, the
already-handled page (showing the stored status), or the
decision-registered page. -/
inductive DecisionView
  | notFound
  | alreadyDecided (status : String)
  | registered
deriving DecidableEq

/-- `CODE_LENGTH` (src/app.py line 53). -/
def CODE_LENGTH : Nat := 8

/-- `CODE_ALPHABET` (src/app.py line 55). -/
def CODE_ALPHABET : String := "ABCDEFGHJKLMNPQRSTUVWXYZ23456789"

/-- `generate_requisition_code`: the `while True` draw-and-check loop,
with the stream of random candidates made explicit; the first
candidate whose code is not in the store is returned. -/
def generate_requisition_code (candidates : List String)
    (store : List Requisition) : Option String :=
  candidates.find? (fun c => (store.find? (fun r => r.code == c)).isNone)

/-- `Requisition.query.filter_by(code=code.upper()).first()`. -/
def findByCode (store : List Requisition) (code : String) : Option Requisition :=
  store.find? (fun r => r.code == pyUpper code)

/-- Committing a mutation of the row with the given (unique) code. -/
def updateReq (store : List Requisition) (code : String)
    (f : Requisition → Requisition) : List Requisition :=
  store.map (fun r => if r.code == code then f r else r)

/-- The already-handled test of both endpoints:
`'godkänt' in (requisition.status or '').lower()`. -/
def alreadyHandled (status : String) : Bool := strIn "godkänt" (pyLower status)

/-- `GET /requisition/code/approve` (src/app.py lines 644-671). -/
def approve_requisition (store : List Requisition) (code : String) (now : Nat) :
    DecisionView × List Requisition :=
  match findByCode store code with
  | none => (.notFound, store)
  | some req =>
    if alreadyHandled req.status then (.alreadyDecided req.status, store)
    else (.registered,
      updateReq store req.code
        (fun r => { r with status := "Godkänt", decided_at := some now }))

/-- `GET /requisition/code/reject` (src/app.py lines 674-701). -/
def reject_requisition (store : List Requisition) (code : String) (now : Nat) :
    DecisionView × List Requisition :=
  match findByCode store code with
  | none => (.notFound, store)
  | some req =>
    if alreadyHandled req.status then (.alreadyDecided req.status, store)
    else (.registered,
      updateReq store req.code
        (fun r => { r with status := "Ej godkänt", decided_at := some now }))

deriving instance DecidableEq for Except

/-! ## Lifecycle lemmas -/

/-- `find?` by code commutes with a code-preserving map of the store. -/
theorem find?_map_code (store : List Requisition) (g : Requisition → Requisition)
    (hg : ∀ r, (g r).code = r.code) (c : String) :
    (store.map g).find? (fun r => r.code == c) =
      (store.find? (fun r => r.code == c)).map g := by
  induction store with
  | nil => rfl
  | cons r t ih =>
    simp only [List.map_cons]
    cases h : (r.code == c) with
    | false =>
      rw [List.find?_cons_of_neg _ (by rw [hg r, h]; exact Bool.false_ne_true),
        List.find?_cons_of_neg _ (by rw [h]; exact Bool.false_ne_true), ih]
    | true =>
      rw [List.find?_cons_of_pos _ (by rw [hg r, h]),
        List.find?_cons_of_pos _ (by rw [h])]
      rfl

/-- `findByCode` after committing a status mutation of the row with
code `u`: the lookup result is the looked-up row, mutated when its
code is `u`. -/
theorem findByCode_updateReq (store : List Requisition) (u : String) (st : String)
    (n : Nat) (c : String) :
    findByCode (updateReq store u (fun r => { r with status := st, decided_at := some n })) c
      = (findByCode store c).map
          (fun r => if r.code == u then { r with status := st, decided_at := some n } else r) := by
  unfold findByCode updateReq
  apply find?_map_code
  intro r
  by_cases h : r.code == u <;> simp [h]

/-- A pending requisition used to instantiate the lifecycle theorems. -/
def exReqPend : Requisition :=
  ⟨"AAAA2222", "Eva Ek", some "Marcus", some "marcus.hager@edsvikensel.se",
    some "Jacka", "Väntar", 3, 3, none⟩

/-- A rejected requisition used to instantiate the lifecycle theorems. -/
def exReqRej : Requisition :=
  ⟨"BBBB3333", "Eva Ek", none, none, none, "Ej godkänt", 3, 3, some 5⟩

/-- An approved requisition used to instantiate the lifecycle theorems. -/
def exReqApp : Requisition :=
  ⟨"CCCC4444", "Eva Ek", none, none, none, "Godkänt", 3, 3, some 5⟩

/-- C3: a Pending requisition approved then rejected on the same code:
the approval registers, the stored status becomes Godkänt with
`decided_at` stamped by the first call, and the rejection is answered
AlreadyDecided leaving the store — hence status and decision stamp —
unchanged. -/
theorem spec_c3 (store : List Requisition) (code : String) (n1 n2 : Nat)
    (req : Requisition) (hfind : findByCode store code = some req)
    (hst : req.status = "Väntar") :
    (approve_requisition store code n1).1 = DecisionView.registered ∧
    findByCode (approve_requisition store code n1).2 code =
      some { req with status := "Godkänt", decided_at := some n1 } ∧
    reject_requisition (approve_requisition store code n1).2 code n2 =
      (DecisionView.alreadyDecided "Godkänt", (approve_requisition store code n1).2) := by
  have hhandled : alreadyHandled req.status = false := by rw [hst]; decide
  have happ : approve_requisition store code n1 =
      (.registered, updateReq store req.code
        (fun r => { r with status := "Godkänt", decided_at := some n1 })) := by
    unfold approve_requisition
    rw [hfind]
    simp [hhandled]
  have hfind2 : findByCode (approve_requisition store code n1).2 code =
      some { req with status := "Godkänt", decided_at := some n1 } := by
    rw [happ]
    dsimp only
    rw [findByCode_updateReq, hfind]
    simp
  refine ⟨by rw [happ], hfind2, ?_⟩
  unfold reject_requisition
  rw [hfind2]
  simp [show alreadyHandled "Godkänt" = true from by decide]

/-- C3 witness: the theorem at a one-row store holding a pending
requisition, looked up by the lowercase form of its code. -/
theorem spec_c3_witness :
    (approve_requisition [exReqPend] "aaaa2222" 5).1 = DecisionView.registered ∧
    findByCode (approve_requisition [exReqPend] "aaaa2222" 5).2 "aaaa2222" =
      some { exReqPend with status := "Godkänt", decided_at := some 5 } ∧
    reject_requisition (approve_requisition [exReqPend] "aaaa2222" 5).2 "aaaa2222" 6 =
      (DecisionView.alreadyDecided "Godkänt",
        (approve_requisition [exReqPend] "aaaa2222" 5).2) :=
  spec_c3 [exReqPend] "aaaa2222" 5 6 exReqPend (by decide) (by decide)

/-- C9: once a requisition is decided either way — status `Godkänt`
or `Ej godkänt` — both endpoints answer AlreadyDecided and leave the
store untouched, because the lowercased status contains the substring
`godkänt` in both cases. -/
theorem spec_c9 (store : List Requisition) (code : String) (now : Nat)
    (req : Requisition) (hfind : findByCode store code = some req)
    (hst : req.status = "Godkänt" ∨ req.status = "Ej godkänt") :
    approve_requisition store code now = (.alreadyDecided req.status, store) ∧
    reject_requisition store code now = (.alreadyDecided req.status, store) := by
  have hhandled : alreadyHandled req.status = true := by
    rcases hst with h | h <;> rw [h] <;> decide
  constructor
  · unfold approve_requisition
    rw [hfind]
    simp [hhandled]
  · unfold reject_requisition
    rw [hfind]
    simp [hhandled]

/-- C9 witness: the theorem at a store holding one approved and one
rejected requisition, at both decided statuses. -/
theorem spec_c9_witness :
    (approve_requisition [exReqRej, exReqApp] "CCCC4444" 9 =
      (.alreadyDecided exReqApp.status, [exReqRej, exReqApp]) ∧
     reject_requisition [exReqRej, exReqApp] "CCCC4444" 9 =
      (.alreadyDecided exReqApp.status, [exReqRej, exReqApp])) ∧
    (approve_requisition [exReqRej, exReqApp] "bbbb3333" 9 =
      (.alreadyDecided exReqRej.status, [exReqRej, exReqApp]) ∧
     reject_requisition [exReqRej, exReqApp] "bbbb3333" 9 =
      (.alreadyDecided exReqRej.status, [exReqRej, exReqApp])) :=
  ⟨spec_c9 [exReqRej, exReqApp] "CCCC4444" 9 exReqApp (by decide) (Or.inl (by decide)),
   spec_c9 [exReqRej, exReqApp] "bbbb3333" 9 exReqRej (by decide) (Or.inr (by decide))⟩

/-- C1 counterexample: a persisted requisition with status
`Ej godkänt` (Rejected) answered by the approve endpoint: the
response is AlreadyDecided and the store is unchanged, refuting the
claim that a rejected requisition is not treated as already decided
and is flipped to Approved. -/
theorem spec_c1_counterexample :
    approve_requisition [exReqRej] "BBBB3333" 7 =
      (DecisionView.alreadyDecided "Ej godkänt", [exReqRej]) := by decide

/-- C1 amended: a `decide(code, Approved)` call on a requisition
whose status is Rejected (`Ej godkänt`) IS answered with
AlreadyDecided and leaves the store unchanged — Rejected is as sticky
as Approved, because the already-decided check looks for the
substring `godkänt` in the lowercased status and `ej godkänt`
contains it. -/
theorem spec_c1 (store : List Requisition) (code : String) (now : Nat)
    (req : Requisition) (hfind : findByCode store code = some req)
    (hst : req.status = "Ej godkänt") :
    approve_requisition store code now = (.alreadyDecided req.status, store) := by
  have hhandled : alreadyHandled req.status = true := by rw [hst]; decide
  unfold approve_requisition
  rw [hfind]
  simp [hhandled]

/-- C1 witness: the amended theorem at a one-row store holding a
rejected requisition. -/
theorem spec_c1_witness :
    approve_requisition [exReqRej] "bbbb3333" 8 =
      (.alreadyDecided exReqRej.status, [exReqRej]) :=
  spec_c1 [exReqRej] "bbbb3333" 8 exReqRej (by decide) (by decide)

/-- C6 counterexample: `CODE_ALPHABET` has 32 characters, not the 33
the claim states. -/
theorem spec_c6_counterexample :
    CODE_ALPHABET.length = 32 ∧ CODE_ALPHABET.length ≠ 33 := by decide

/-- C6 amended: the alphabet has exactly 32 characters and contains
none of `0`, `O`, `1`, `I`; and the draw-and-retry loop only ever
returns a candidate that is absent from the persisted store, so a
returned code never collides with an existing one. -/
theorem spec_c6 :
    CODE_ALPHABET.length = 32 ∧
    ('0' ∉ CODE_ALPHABET.data ∧ 'O' ∉ CODE_ALPHABET.data ∧
     '1' ∉ CODE_ALPHABET.data ∧ 'I' ∉ CODE_ALPHABET.data) ∧
    (∀ (candidates : List String) (store : List Requisition) (code : String),
      generate_requisition_code candidates store = some code →
      (∀ r ∈ store, r.code ≠ code) ∧ code ∈ candidates) := by
  refine ⟨by decide, by decide, ?_⟩
  intro candidates store code h
  have h' : candidates.find?
      (fun c => (store.find? (fun r => r.code == c)).isNone) = some code := h
  have hmem : code ∈ candidates := List.mem_of_find?_eq_some h'
  have hp := List.find?_some h'
  simp only [Option.isNone_iff_eq_none] at hp
  refine ⟨?_, hmem⟩
  intro r hr hcode
  have := List.find?_eq_none.mp hp r hr
  simp [hcode] at this

/-- C6 witness: a single-candidate stream against a store holding one
other code. -/
theorem spec_c6_witness :
    (∀ r ∈ [exReqRej], r.code ≠ "AAAA2222") ∧ "AAAA2222" ∈ ["AAAA2222"] :=
  spec_c6.2.2 ["AAAA2222"] [exReqRej] "AAAA2222" (by decide)

/-! ## Extraction lemmas -/

/-- A row whose reference does not contain the search name is skipped
(`continue`): only the reference column is ever read. -/
theorem processRow_no_match (row : List Cell) (search : String) (c4 : Cell)
    (h4 : row.get? 4 = some c4) (hm : rowMatches row search = false) :
    processRow row search = .ok none := by
  have href : rowRef row = (if notna c4 then pyStr c4 else "") := by
    unfold rowRef
    rw [h4]
  unfold rowMatches at hm
  rw [href] at hm
  unfold processRow
  rw [h4]
  simp [hm]

/-- A row with fewer than five columns raises `IndexError` at the
unconditional reference access `row.iloc[4]`. -/
theorem processRow_short (row : List Cell) (search : String)
    (h : row.length < 5) : processRow row search = .error "IndexError" := by
  have h4 : row.get? 4 = none := List.get?_eq_none.mpr (by omega)
  unfold processRow
  rw [h4]

/-- If some row of the table is shorter than five columns, the whole
extraction raises. -/
theorem parseRowsAux_short (search : String) (rows : List (List Cell))
    (row : List Cell) (hmem : row ∈ rows) (hlen : row.length < 5) :
    ∃ e, parseRowsAux search rows = .error e := by
  induction rows with
  | nil => cases hmem
  | cons r t ih =>
    rcases List.mem_cons.mp hmem with rfl | hmem'
    · exact ⟨"IndexError", by
        unfold parseRowsAux
        rw [processRow_short row search hlen]⟩
    · cases hp : processRow r search with
      | error e =>
        exact ⟨e, by
          unfold parseRowsAux
          rw [hp]⟩
      | ok h =>
        obtain ⟨e, he⟩ := ih hmem'
        exact ⟨e, by
          unfold parseRowsAux
          rw [hp, he]⟩

/-- C10 counterexample: a parseable six-column table whose single
data row does not match the person: extraction completes with the
empty report instead of raising, refuting the claim that any table
with a data row and fewer than 12 columns raises even when no row
matches. -/
theorem spec_c10_counterexample :
    parse_excel_for_person
      [[Cell.empty, Cell.empty, Cell.empty, Cell.empty, Cell.str "Anna", Cell.empty]]
      "BOB" = .ok ⟨"BOB", 0, []⟩ ∧
    [Cell.empty, Cell.empty, Cell.empty, Cell.empty, Cell.str "Anna", Cell.empty].length < 12 := by
  constructor
  · decide
  · decide

/-- C10 amended: the fixed positional accesses make extraction
partial, but the unconditional access is only column index 4: a
parseable table with at least one data row of fewer than 5 columns
always raises, even when no row matches; columns 5 through 11 are
read only for rows that match the person. -/
theorem spec_c10 (rows : List (List Cell)) (name : String) (row : List Cell)
    (hmem : row ∈ rows) (hlen : row.length < 5) :
    ∃ e, parse_excel_for_person rows name = .error e := by
  obtain ⟨e, he⟩ := parseRowsAux_short (searchName name) rows row hmem hlen
  exact ⟨e, by
    unfold parse_excel_for_person
    rw [he]⟩

/-- C10 witness: a one-column table with one data row raises for any
person. -/
theorem spec_c10_witness :
    ∃ e, parse_excel_for_person [[Cell.empty]] "BOB" = .error e :=
  spec_c10 [[Cell.empty]] "BOB" [Cell.empty] (by decide) (by decide)

/-- A table whose rows all carry a reference column and none of which
matches the search produces no records and a zero running total. -/
theorem parseRowsAux_no_match (search : String) (rows : List (List Cell))
    (hw : ∀ row ∈ rows, 5 ≤ row.length)
    (hm : ∀ row ∈ rows, rowMatches row search = false) :
    parseRowsAux search rows = .ok ([], 0) := by
  induction rows with
  | nil => rfl
  | cons r t ih =>
    have hr : 5 ≤ r.length := hw r (List.mem_cons_self r t)
    obtain ⟨c4, h4⟩ : ∃ c, r.get? 4 = some c :=
      ⟨r.get ⟨4, by omega⟩, List.get?_eq_get (by omega)⟩
    have hskip : processRow r search = .ok none :=
      processRow_no_match r search c4 h4 (hm r (List.mem_cons_self r t))
    have ht : parseRowsAux search t = .ok ([], 0) :=
      ih (fun row h => hw row (List.mem_cons_of_mem r h))
        (fun row h => hm row (List.mem_cons_of_mem r h))
    unfold parseRowsAux
    rw [hskip, ht]

/-- C7 counterexample: a parseable one-column table with one data row
and no matching rows raises `IndexError` (the fixed reference access)
— the extractor does not only throw when the blob cannot be parsed as
tabular data. -/
theorem spec_c7_counterexample :
    parse_excel_for_person [[Cell.empty]] "BOB" = .error "IndexError" := by decide

/-- C7 amended: for every parseable table in which each data row has
at least the five columns up to the reference field and no row
matches the person (in particular a header-only table, which has no
data rows), extraction returns the empty report with `totalAmount`
zero without raising; a data row narrower than the reference column
raises even though the blob parsed. -/
theorem spec_c7 (rows : List (List Cell)) (name : String)
    (hw : ∀ row ∈ rows, 5 ≤ row.length)
    (hm : ∀ row ∈ rows, rowMatches row (searchName name) = false) :
    parse_excel_for_person rows name = .ok ⟨name, 0, []⟩ := by
  unfold parse_excel_for_person
  rw [parseRowsAux_no_match (searchName name) rows hw hm]
  dsimp only
  rw [show round2 0 = 0 from by decide]

/-- C7 witness: a five-column table whose single row references
another person, extracted for KALLE. -/
theorem spec_c7_witness :
    parse_excel_for_person
      [[Cell.empty, Cell.empty, Cell.empty, Cell.empty, Cell.str "Anna"]]
      "KALLE" = .ok ⟨"KALLE", 0, []⟩ :=
  spec_c7 [[Cell.empty, Cell.empty, Cell.empty, Cell.empty, Cell.str "Anna"]]
    "KALLE" (by decide) (by decide)

/-- Two strings with the same character data are equal. -/
theorem str_ext {s t : String} (h : s.data = t.data) : s = t := by
  cases s
  cases t
  exact congrArg String.mk h

/-- A non-empty string has non-empty character data. -/
theorem str_data_ne {s : String} (h : s ≠ "") : s.data ≠ [] := by
  intro hd
  apply h
  cases s
  exact congrArg String.mk hd

/-- No whitespace character is an uppercase letter. -/
theorem space_not_upper (c : Char) (h : pyIsSpace c = true) : isUpperAZ c = false := by
  unfold pyIsSpace at h
  simp only [Bool.or_eq_true, beq_iff_eq] at h
  rcases h with ((((((((h | h) | h) | h) | h) | h) | h) | h) | h) | h <;> subst h <;> decide

/-- No whitespace character is a digit. -/
theorem space_not_digit (c : Char) (h : pyIsSpace c = true) : isDigit09 c = false := by
  unfold pyIsSpace at h
  simp only [Bool.or_eq_true, beq_iff_eq] at h
  rcases h with ((((((((h | h) | h) | h) | h) | h) | h) | h) | h) | h <;> subst h <;> decide

/-- The prefix-code substitution leaves an all-whitespace string
alone (the pattern needs a digit). -/
theorem sub1_all_space (l : List Char) (h : ∀ c ∈ l, pyIsSpace c = true) :
    sub1 l = l := by
  cases l with
  | nil => rfl
  | cons a rest =>
    have ha := h a (List.mem_cons_self a rest)
    unfold sub1
    dsimp only
    rw [space_not_upper a ha, space_not_digit a ha]
    simp

/-- An all-whitespace string strips to nothing. -/
theorem stripL_all_space (l : List Char) (h : ∀ c ∈ l, pyIsSpace c = true) :
    stripL l = [] := by
  unfold stripL lstripL rstripL
  rw [List.dropWhile_eq_nil_iff.mpr h]
  rfl

/-- An all-whitespace (or empty) reference normalizes to the empty
string. -/
theorem normalizeRefL_all_space (l : List Char) (h : ∀ c ∈ l, pyIsSpace c = true) :
    normalizeRefL l = [] := by
  unfold normalizeRefL
  rw [sub1_all_space l h, stripL_all_space l h]
  rfl

/-- C8 counterexample: a person name that strips to the empty string
matches every row — including one whose reference cell is missing —
because the empty string is a substring of everything; the blank-
reference row contributes a record. -/
theorem spec_c8_counterexample :
    parse_excel_for_person
      [[Cell.empty, Cell.empty, Cell.empty, Cell.empty, Cell.empty, Cell.empty,
        Cell.empty, Cell.empty, Cell.num 2, Cell.num 3, Cell.empty, Cell.empty]]
      "" = .ok ⟨"", 3, [⟨none, none, "", 2, 3⟩]⟩ := by decide

/-- C8 amended: for every person name that does not strip to the
empty string, a data row whose reference field (column index 4) is
missing or blank never matches and never contributes a record; a
blank person name, however, matches blank references, since the skip
test is substring containment and the empty string is contained in
everything. -/
theorem spec_c8 (row : List Cell) (name : String)
    (hname : searchName name ≠ "") (hblank : blankRef row = true) :
    rowMatches row (searchName name) = false ∧
    ∀ i b, processRow row (searchName name) ≠ .ok (some (i, b)) := by
  have hdata : (searchName name).data ≠ [] := str_data_ne hname
  have hupper : pyUpper (normalizeRef (rowRef row)) = "" := by
    unfold blankRef at hblank
    unfold rowRef
    cases hg : row.get? 4 with
    | none => rfl
    | some c =>
      cases c with
      | empty => rfl
      | str s =>
        rw [hg] at hblank
        simp only [List.all_eq_true] at hblank
        have hn : normalizeRefL s.data = [] := normalizeRefL_all_space s.data hblank
        show pyUpper (normalizeRef (pyStr (Cell.str s))) = ""
        unfold normalizeRef pyStr
        rw [hn]
        rfl
      | num q => rw [hg] at hblank; simp [blankRef] at hblank
      | date d => rw [hg] at hblank; simp [blankRef] at hblank
  have hmatch : rowMatches row (searchName name) = false := by
    unfold rowMatches
    rw [hupper]
    unfold strIn
    show containsSubL (searchName name).data [] = false
    unfold containsSubL
    cases hd : (searchName name).data with
    | nil => exact absurd hd hdata
    | cons a t => rfl
  refine ⟨hmatch, ?_⟩
  intro i b
  cases hg : row.get? 4 with
  | none =>
    have : processRow row (searchName name) = .error "IndexError" := by
      unfold processRow
      rw [hg]
    rw [this]
    simp
  | some c4 =>
    rw [processRow_no_match row (searchName name) c4 hg hmatch]
    simp

/-- C8 witness: a row whose reference cell is missing, searched for a
non-blank person. -/
theorem spec_c8_witness :
    rowMatches [Cell.empty, Cell.empty, Cell.empty, Cell.empty, Cell.empty]
      (searchName "Eva Ek") = false ∧
    ∀ i b, processRow [Cell.empty, Cell.empty, Cell.empty, Cell.empty, Cell.empty]
      (searchName "Eva Ek") ≠ .ok (some (i, b)) :=
  spec_c8 [Cell.empty, Cell.empty, Cell.empty, Cell.empty, Cell.empty]
    "Eva Ek" (by decide) (by decide)

set_option maxHeartbeats 1000000 in
/-- The success shapes of `processRow`: on `.ok (some (i, b))` the
stored amount is the rounded coerced amount, the raw one is the
column-9 coercion, and a missing quantity, amount or invoice date
falls back to its default. -/
theorem processRow_ok_some (row : List Cell) (search : String) (i : Inkop) (b : ℚ)
    (h : processRow row search = .ok (some (i, b))) :
    i.belopp = round2 b ∧ b = rowRawBelopp row ∧
    (row.get? 8 = some Cell.empty → i.kvantitet = 1) ∧
    (row.get? 9 = some Cell.empty → i.belopp = 0 ∧ b = 0) ∧
    (row.get? 11 = some Cell.empty → i.datum = none) := by
  unfold processRow at h
  cases h4 : row.get? 4 with
  | none => rw [h4] at h; cases h
  | some c4 =>
  rw [h4] at h
  dsimp only at h
  by_cases hm : strIn search (pyUpper (normalizeRef (if notna c4 then pyStr c4 else ""))) = true
  case neg =>
    rw [Bool.not_eq_true] at hm
    rw [hm] at h
    simp at h
  rw [hm] at h
  simp only [if_true] at h
  cases h5 : row.get? 5 with
  | none => rw [h5] at h; cases h
  | some c5 =>
  rw [h5] at h
  dsimp only at h
  cases h6 : row.get? 6 with
  | none => rw [h6] at h; cases h
  | some c6 =>
  rw [h6] at h
  dsimp only at h
  cases h7 : row.get? 7 with
  | none => rw [h7] at h; cases h
  | some c7 =>
  rw [h7] at h
  dsimp only at h
  cases h8 : row.get? 8 with
  | none => rw [h8] at h; cases h
  | some c8 =>
  rw [h8] at h
  dsimp only at h
  cases hq : (if notna c8 then pyInt c8 else some 1) with
  | none => rw [hq] at h; cases h
  | some kv =>
  rw [hq] at h
  dsimp only at h
  cases h9 : row.get? 9 with
  | none => rw [h9] at h; cases h
  | some c9 =>
  rw [h9] at h
  dsimp only at h
  cases hb : (if notna c9 then pyFloat c9 else some 0) with
  | none => rw [hb] at h; cases h
  | some bel =>
  rw [hb] at h
  dsimp only at h
  cases h11 : row.get? 11 with
  | none => rw [h11] at h; cases h
  | some c11 =>
  rw [h11] at h
  dsimp only at h
  simp only [Except.ok.injEq, Option.some.injEq, Prod.mk.injEq] at h
  obtain ⟨hi, hbel⟩ := h
  subst hbel
  refine ⟨by rw [← hi], ?_, ?_, ?_, ?_⟩
  · unfold rowRawBelopp
    rw [h9]
    dsimp only
    cases hn : notna c9 with
    | false =>
      rw [hn] at hb
      simp only [Bool.false_eq_true, if_false, Option.some.injEq] at hb
      simp only [Bool.false_eq_true, if_false]
      exact hb.symm
    | true =>
      rw [hn] at hb
      simp only [if_true] at hb
      rw [hb]
      rfl
  · intro h8e
    injection h8e with hc
    subst hc
    simp only [notna, Bool.false_eq_true, if_false, Option.some.injEq] at hq
    rw [← hi]
    dsimp only
    omega
  · intro h9e
    injection h9e with hc
    subst hc
    simp only [notna, Bool.false_eq_true, if_false, Option.some.injEq] at hb
    rw [← hi]
    dsimp only
    rw [← hb]
    exact ⟨by rw [show round2 0 = 0 from by decide], rfl⟩
  · intro h11e
    injection h11e with hc
    subst hc
    rw [← hi]
    rfl

set_option maxHeartbeats 1000000 in
/-- A row of full width whose quantity and amount cells are missing
or coercible is processed without raising. -/
theorem processRow_total (row : List Cell) (search : String)
    (hw : 12 ≤ row.length)
    (h8 : ∀ c, row.get? 8 = some c → notna c = true → (pyInt c).isSome = true)
    (h9 : ∀ c, row.get? 9 = some c → notna c = true → (pyFloat c).isSome = true) :
    ∃ o, processRow row search = .ok o := by
  obtain ⟨c4, g4⟩ : ∃ c, row.get? 4 = some c :=
    ⟨row.get ⟨4, by omega⟩, List.get?_eq_get (by omega)⟩
  obtain ⟨c5, g5⟩ : ∃ c, row.get? 5 = some c :=
    ⟨row.get ⟨5, by omega⟩, List.get?_eq_get (by omega)⟩
  obtain ⟨c6, g6⟩ : ∃ c, row.get? 6 = some c :=
    ⟨row.get ⟨6, by omega⟩, List.get?_eq_get (by omega)⟩
  obtain ⟨c7, g7⟩ : ∃ c, row.get? 7 = some c :=
    ⟨row.get ⟨7, by omega⟩, List.get?_eq_get (by omega)⟩
  obtain ⟨c8, g8⟩ : ∃ c, row.get? 8 = some c :=
    ⟨row.get ⟨8, by omega⟩, List.get?_eq_get (by omega)⟩
  obtain ⟨c9, g9⟩ : ∃ c, row.get? 9 = some c :=
    ⟨row.get ⟨9, by omega⟩, List.get?_eq_get (by omega)⟩
  obtain ⟨c11, g11⟩ : ∃ c, row.get? 11 = some c :=
    ⟨row.get ⟨11, by omega⟩, List.get?_eq_get (by omega)⟩
  unfold processRow
  rw [g4]
  dsimp only
  by_cases hm : strIn search (pyUpper (normalizeRef (if notna c4 then pyStr c4 else ""))) = true
  case neg =>
    rw [Bool.not_eq_true] at hm
    rw [hm]
    exact ⟨none, by simp⟩
  rw [hm]
  simp only [if_true]
  rw [g5]
  dsimp only
  rw [g6]
  dsimp only
  rw [g7]
  dsimp only
  rw [g8]
  dsimp only
  cases hq : (if notna c8 then pyInt c8 else some 1) with
  | none =>
    exfalso
    cases hn : notna c8 with
    | false => rw [hn] at hq; simp at hq
    | true =>
      have hs := h8 c8 g8 hn
      rw [hn] at hq
      simp only [if_true] at hq
      rw [hq] at hs
      simp at hs
  | some kv =>
    dsimp only
    rw [g9]
    dsimp only
    cases hb : (if notna c9 then pyFloat c9 else some 0) with
    | none =>
      exfalso
      cases hn : notna c9 with
      | false => rw [hn] at hb; simp at hb
      | true =>
        have hs := h9 c9 g9 hn
        rw [hn] at hb
        simp only [if_true] at hb
        rw [hb] at hs
        simp at hs
    | some bel =>
      dsimp only
      rw [g11]
      exact ⟨_, rfl⟩

/-- Row-by-row totality: a table of full-width rows whose quantity
and amount cells are missing or coercible is extracted without
raising. -/
theorem parseRowsAux_total (search : String) (rows : List (List Cell))
    (h : ∀ row ∈ rows, 12 ≤ row.length ∧
      (∀ c, row.get? 8 = some c → notna c = true → (pyInt c).isSome = true) ∧
      (∀ c, row.get? 9 = some c → notna c = true → (pyFloat c).isSome = true)) :
    ∃ lt, parseRowsAux search rows = .ok lt := by
  induction rows with
  | nil => exact ⟨([], 0), rfl⟩
  | cons r t ih =>
    obtain ⟨hw, h8, h9⟩ := h r (List.mem_cons_self r t)
    obtain ⟨o, ho⟩ := processRow_total r search hw h8 h9
    obtain ⟨⟨l, tq⟩, ht⟩ := ih (fun row hm => h row (List.mem_cons_of_mem r hm))
    cases o with
    | none => exact ⟨(l, tq), by unfold parseRowsAux; rw [ho, ht]⟩
    | some ib =>
      obtain ⟨i, b⟩ := ib
      exact ⟨(i :: l, ratAdd b tq), by unfold parseRowsAux; rw [ho, ht]⟩

/-- A row used to instantiate the coercion theorems: matching
reference, all of quantity, amount and invoice date missing. -/
def rowDefC2 : List Cell :=
  [Cell.empty, Cell.empty, Cell.empty, Cell.empty, Cell.str "Eva", Cell.empty,
   Cell.empty, Cell.empty, Cell.empty, Cell.empty, Cell.empty, Cell.empty]

/-- The record `rowDefC2` yields: every defaulted field. -/
def inkDef : Inkop := ⟨none, none, "", 1, 0⟩

/-- C2 counterexample: a matching row whose quantity cell holds the
non-numeric text `abc`: `int` raises and the whole extraction aborts,
refuting the claim that a failed coercion degrades the field to its
default and never raises. -/
theorem spec_c2_counterexample :
    parse_excel_for_person
      [[Cell.empty, Cell.empty, Cell.empty, Cell.empty, Cell.str "Johan Svensson",
        Cell.empty, Cell.empty, Cell.empty, Cell.str "abc", Cell.num 5, Cell.empty,
        Cell.empty]]
      "Johan Svensson" = .error "ValueError: invalid literal for int" := by decide

/-- C2 amended: a MISSING (`NaN`) quantity, amount or invoice-date
cell degrades that single field to its default (quantity 1, amount 0,
date omitted) without aborting, and extraction of a full-width table
completes whenever every present quantity and amount cell coerces; a
present cell whose value fails numeric coercion, however, raises and
aborts the row and the whole extraction. -/
theorem spec_c2 :
    (∀ (row : List Cell) (search : String) (i : Inkop) (b : ℚ),
      processRow row search = .ok (some (i, b)) →
      (row.get? 8 = some Cell.empty → i.kvantitet = 1) ∧
      (row.get? 9 = some Cell.empty → i.belopp = 0) ∧
      (row.get? 11 = some Cell.empty → i.datum = none)) ∧
    (∀ (rows : List (List Cell)) (name : String),
      (∀ row ∈ rows, 12 ≤ row.length ∧
        (∀ c, row.get? 8 = some c → notna c = true → (pyInt c).isSome = true) ∧
        (∀ c, row.get? 9 = some c → notna c = true → (pyFloat c).isSome = true)) →
      ∃ rep, parse_excel_for_person rows name = .ok rep) := by
  constructor
  · intro row search i b h
    obtain ⟨-, -, hk, hb, hd⟩ := processRow_ok_some row search i b h
    exact ⟨hk, fun h9 => (hb h9).1, hd⟩
  · intro rows name h
    obtain ⟨⟨l, t⟩, ht⟩ := parseRowsAux_total (searchName name) rows h
    exact ⟨⟨name, round2 t, l⟩, by unfold parse_excel_for_person; rw [ht]⟩

/-- C2 witness: the defaults at a concrete matching row with missing
quantity, amount and date cells, and totality at the one-row table
around it. -/
theorem spec_c2_witness :
    inkDef.kvantitet = 1 ∧ inkDef.belopp = 0 ∧ inkDef.datum = none ∧
    (∃ rep, parse_excel_for_person [rowDefC2] "Eva" = .ok rep) :=
  have h := spec_c2.1 rowDefC2 "EVA" inkDef 0 (by decide)
  ⟨h.1 (by decide), h.2.1 (by decide), h.2.2 (by decide),
   spec_c2.2 [rowDefC2] "Eva" (by decide)⟩

/-! ## The totalling invariant (C4) -/

/-- `ratAdd` is rational addition. -/
theorem ratAdd_eq (a b : ℚ) : ratAdd a b = a + b := by
  have ha : ((a.den : ℚ)) ≠ 0 := by exact_mod_cast a.den_nz
  have hb : ((b.den : ℚ)) ≠ 0 := by exact_mod_cast b.den_nz
  have hA : (a.num : ℚ) = a * a.den := (div_eq_iff ha).mp (Rat.num_div_den a)
  have hB : (b.num : ℚ) = b * b.den := (div_eq_iff hb).mp (Rat.num_div_den b)
  unfold ratAdd
  rw [Rat.mkRat_eq_div]
  push_cast
  field_simp
  rw [hA, hB]
  ring

/-- The scaled term inside `round2` is `q * 100`. -/
theorem mkRat_mul100 (q : ℚ) : mkRat (q.num * 100) q.den = q * 100 := by
  have ha : ((q.den : ℚ)) ≠ 0 := by exact_mod_cast q.den_nz
  have hA : (q.num : ℚ) = q * q.den := (div_eq_iff ha).mp (Rat.num_div_den q)
  rw [Rat.mkRat_eq_div]
  push_cast
  field_simp
  rw [hA]
  ring

/-- Whether a rational is exactly representable at two decimals,
phrased on the scaled term of `round2` so that it evaluates. -/
def twoDecimal (q : ℚ) : Bool := (mkRat (q.num * 100) q.den).den == 1

/-- An integer-valued rational is its own numerator. -/
theorem num_cast_of_den_one (m : ℚ) (h : m.den = 1) : (m.num : ℚ) = m := by
  have := Rat.num_div_den m
  rw [h] at this
  simpa using this

/-- Rounding to two decimals fixes the values that are exact at two
decimals. -/
theorem round2_eq_self (q : ℚ) (h : twoDecimal q = true) : round2 q = q := by
  unfold twoDecimal at h
  rw [beq_iff_eq] at h
  unfold round2
  set m := mkRat (q.num * 100) q.den with hm
  have hnum : (m.num : ℚ) = m := num_cast_of_den_one m h
  have hfl : ratFloor m = m.num := by
    unfold ratFloor
    rw [h]
    simp [Int.fdiv_one]
  have hlt : m < mkRat (2 * ratFloor m + 1) 2 := by
    rw [hfl, Rat.mkRat_eq_div]
    conv_lhs => rw [← hnum]
    push_cast
    rw [lt_div_iff₀ (by norm_num : (0 : ℚ) < 2)]
    linarith
  have hrnd : roundHalfEven m = m.num := by
    unfold roundHalfEven
    rw [if_pos hlt, hfl]
  rw [hrnd]
  have h100 : ((100 : ℕ) : ℚ) ≠ 0 := by norm_num
  rw [Rat.mkRat_eq_div, hnum]
  have := mkRat_mul100 q
  rw [← hm] at this
  rw [this]
  push_cast
  field_simp

/-- The accumulated total equals the sum of the stored record amounts
whenever every raw row amount is exact at two decimals. -/
theorem parseRowsAux_sum (search : String) (rows : List (List Cell))
    (l : List Inkop) (t : ℚ)
    (h : parseRowsAux search rows = .ok (l, t))
    (hd : ∀ row ∈ rows, twoDecimal (rowRawBelopp row) = true) :
    (l.map Inkop.belopp).sum = t := by
  induction rows generalizing l t with
  | nil =>
    unfold parseRowsAux at h
    simp only [Except.ok.injEq, Prod.mk.injEq] at h
    obtain ⟨rfl, rfl⟩ := h
    rfl
  | cons r rest ih =>
    unfold parseRowsAux at h
    cases hp : processRow r search with
    | error e => rw [hp] at h; cases h
    | ok o =>
      rw [hp] at h
      dsimp only at h
      cases haux : parseRowsAux search rest with
      | error e => rw [haux] at h; cases h
      | ok lt =>
        obtain ⟨l', t'⟩ := lt
        rw [haux] at h
        dsimp only at h
        have hsum' : (l'.map Inkop.belopp).sum = t' :=
          ih l' t' haux (fun row hm => hd row (List.mem_cons_of_mem r hm))
        cases o with
        | none =>
          simp only [Except.ok.injEq, Prod.mk.injEq] at h
          obtain ⟨rfl, rfl⟩ := h
          exact hsum'
        | some ib =>
          obtain ⟨i, b⟩ := ib
          simp only [Except.ok.injEq, Prod.mk.injEq] at h
          obtain ⟨rfl, rfl⟩ := h
          obtain ⟨hbel, hraw, -, -, -⟩ := processRow_ok_some r search i b hp
          have h2d : twoDecimal b = true := by
            rw [hraw]
            exact hd r (List.mem_cons_self r rest)
          have : i.belopp = b := by rw [hbel, round2_eq_self b h2d]
          rw [List.map_cons, List.sum_cons, this, hsum', ratAdd_eq]

/-- A ledger row for Bob Ek with amount 0.125 (exactly representable
in binary, so the float computation of the source is exact on it). -/
def rowC4ex : List Cell :=
  [Cell.empty, Cell.empty, Cell.empty, Cell.empty, Cell.str "Bob Ek", Cell.empty,
   Cell.empty, Cell.empty, Cell.empty, Cell.num (mkRat 1 8), Cell.empty, Cell.empty]

/-- The report the extractor builds from two `rowC4ex` rows: each
stored amount is rounded to 0.12 but the total is the rounding of the
unrounded sum 0.25. -/
def repC4 : Report :=
  ⟨"Bob Ek", mkRat 1 4,
   [⟨none, none, "", 1, mkRat 3 25⟩, ⟨none, none, "", 1, mkRat 3 25⟩]⟩

/-- C4 counterexample: the total is the rounding of the sum of the
raw amounts, not of the stored record amounts: two rows of 0.125
give records storing 0.12 each but a total of 0.25, while rounding
the stored sum gives 0.24. -/
theorem spec_c4_counterexample :
    parse_excel_for_person [rowC4ex, rowC4ex] "Bob Ek" = .ok repC4 ∧
    repC4.total_belopp ≠ round2 ((repC4.inkop.map Inkop.belopp).sum) := by
  constructor
  · decide
  · have hs : ((repC4.inkop.map Inkop.belopp).sum) = mkRat 6 25 := by
      show (mkRat 3 25) + ((mkRat 3 25) + 0) = mkRat 6 25
      simp only [Rat.mkRat_eq_div]
      norm_num
    rw [hs]
    decide

/-- C4 amended: `totalAmount` is the rounding of the sum of the raw
(pre-rounding) row amounts; it equals
`round(sum of stored record amounts, 2)` as the claim states whenever
every raw row amount is already exact at two decimals, but the two
can differ when per-record rounding changes an amount. -/
theorem spec_c4 (rows : List (List Cell)) (name : String) (rep : Report)
    (h : parse_excel_for_person rows name = .ok rep)
    (hd : ∀ row ∈ rows, twoDecimal (rowRawBelopp row) = true) :
    rep.total_belopp = round2 ((rep.inkop.map Inkop.belopp).sum) := by
  unfold parse_excel_for_person at h
  cases haux : parseRowsAux (searchName name) rows with
  | error e => rw [haux] at h; cases h
  | ok lt =>
    obtain ⟨l, t⟩ := lt
    rw [haux] at h
    dsimp only at h
    simp only [Except.ok.injEq] at h
    subst h
    dsimp only
    rw [parseRowsAux_sum (searchName name) rows l t haux hd]

/-- A ledger row for Bob Ek with the two-decimal amount 2.0. -/
def rowC4w : List Cell :=
  [Cell.empty, Cell.empty, Cell.empty, Cell.empty, Cell.str "Bob Ek", Cell.empty,
   Cell.empty, Cell.empty, Cell.empty, Cell.num 2, Cell.empty, Cell.empty]

/-- The report extracted from `rowC4w`. -/
def repC4w : Report := ⟨"Bob Ek", 2, [⟨none, none, "", 1, 2⟩]⟩

/-- C4 witness: the amended invariant at a one-row table whose amount
is exact at two decimals. -/
theorem spec_c4_witness :
    repC4w.total_belopp = round2 ((repC4w.inkop.map Inkop.belopp).sum) :=
  spec_c4 [rowC4w] "Bob Ek" repC4w (by decide) (by decide)

/-! ## Idempotence machinery for the normalization (C5)

The three substitutions only ever remove a prefix (`sub1`), a suffix
(`sub2`, `sub3`, `rstripL`) or both ends (`stripL`), so everything
that reaches the second and third substitutions is a contiguous slice
of what they have already cleaned; the lemmas below show the absence
of a match is preserved under slicing, so only the prefix pattern can
fire a second time. -/

/-- `dropWhile` removes a prefix: its result is a `drop`. -/
theorem dropWhile_eq_drop (p : Char → Bool) (l : List Char) :
    ∃ n, l.dropWhile p = l.drop n := by
  induction l with
  | nil => exact ⟨0, rfl⟩
  | cons a t ih =>
    cases hp : p a with
    | true =>
      obtain ⟨n, hn⟩ := ih
      exact ⟨n + 1, by rw [List.dropWhile_cons_of_pos hp]; exact hn⟩
    | false =>
      exact ⟨0, by rw [List.dropWhile_cons_of_neg (by rw [hp]; exact Bool.false_ne_true)]; rfl⟩

/-- Reversing, dropping and reversing back is taking a prefix. -/
theorem reverse_drop_reverse (l : List Char) (n : Nat) :
    (l.reverse.drop n).reverse = l.take (l.length - n) := by
  by_cases h : n ≤ l.length
  · have key : l.reverse.drop n = (l.take (l.length - n)).reverse := by
      have hsplit : l.reverse =
          (l.drop (l.length - n)).reverse ++ (l.take (l.length - n)).reverse := by
        rw [← List.reverse_append, List.take_append_drop]
      have hlen : ((l.drop (l.length - n)).reverse).length = n := by
        rw [List.length_reverse, List.length_drop]
        omega
      rw [hsplit]
      exact List.drop_left' hlen
    rw [key, List.reverse_reverse]
  · have h1 : l.reverse.drop n = [] := by
      apply List.drop_eq_nil_of_le
      rw [List.length_reverse]
      omega
    have h2 : l.length - n = 0 := by omega
    rw [h1, h2]
    rfl

/-- `rstripL` takes a prefix. -/
theorem rstripL_eq_take (l : List Char) : ∃ k, rstripL l = l.take k := by
  obtain ⟨n, hn⟩ := dropWhile_eq_drop pyIsSpace l.reverse
  exact ⟨l.length - n, by unfold rstripL; rw [hn, reverse_drop_reverse]⟩

/-- `stripL` is a contiguous slice: a `take` of a `drop`. -/
theorem stripL_eq_drop_take (l : List Char) :
    ∃ n k, stripL l = (l.drop n).take k := by
  obtain ⟨n, hn⟩ := dropWhile_eq_drop pyIsSpace l
  obtain ⟨k, hk⟩ := rstripL_eq_take (l.dropWhile pyIsSpace)
  exact ⟨n, k, by unfold stripL lstripL; rw [hk, hn]⟩

/-- The head surviving `dropWhile` fails the test. -/
theorem head?_dropWhile (p : Char → Bool) (l : List Char) (a : Char)
    (h : (l.dropWhile p).head? = some a) : p a = false := by
  induction l with
  | nil => cases h
  | cons b t ih =>
    cases hp : p b with
    | true =>
      rw [List.dropWhile_cons_of_pos hp] at h
      exact ih h
    | false =>
      rw [List.dropWhile_cons_of_neg (by rw [hp]; exact Bool.false_ne_true)] at h
      simp only [List.head?_cons, Option.some.injEq] at h
      rw [← h]
      exact hp

/-- `dropWhile` fixes a list whose head fails the test. -/
theorem dropWhile_of_head (p : Char → Bool) (l : List Char)
    (h : ∀ a, l.head? = some a → p a = false) : l.dropWhile p = l := by
  cases l with
  | nil => rfl
  | cons a t =>
    exact List.dropWhile_cons_of_neg
      (by rw [h a rfl]; exact Bool.false_ne_true)

/-- `dropWhile` is idempotent. -/
theorem dropWhile_dropWhile (p : Char → Bool) (l : List Char) :
    (l.dropWhile p).dropWhile p = l.dropWhile p :=
  dropWhile_of_head p _ (fun a h => head?_dropWhile p l a h)

/-- Trailing-whitespace removal is idempotent. -/
theorem rstripL_rstripL (l : List Char) : rstripL (rstripL l) = rstripL l := by
  unfold rstripL
  rw [List.reverse_reverse, dropWhile_dropWhile]

/-- A stripped string has no leading whitespace left. -/
theorem lstripL_stripL (l : List Char) : lstripL (stripL l) = stripL l := by
  apply dropWhile_of_head
  intro a ha
  obtain ⟨k, hk⟩ := rstripL_eq_take (lstripL l)
  unfold stripL at ha
  rw [hk] at ha
  have hhead : (lstripL l).head? = some a := by
    cases k with
    | zero => cases ha
    | succ k =>
      cases hL : lstripL l with
      | nil => rw [hL] at ha; cases ha
      | cons b t =>
        rw [hL] at ha
        rw [List.take_succ_cons] at ha
        simpa using ha
  exact head?_dropWhile pyIsSpace l a hhead

/-- `str.strip()` is idempotent. -/
theorem stripL_stripL (l : List Char) : stripL (stripL l) = stripL l := by
  show rstripL (lstripL (stripL l)) = stripL l
  rw [lstripL_stripL]
  show rstripL (rstripL (lstripL l)) = stripL l
  rw [rstripL_rstripL]
  rfl

/-- Without a match, the suffix substitutions change nothing. -/
theorem subG_of_no_match (cls : Char → Bool) (chk : List Char → Bool)
    (l : List Char) (h : hasMatchG cls chk l = false) : subG cls chk l = l := by
  induction l with
  | nil => rfl
  | cons a t ih =>
    unfold hasMatchG at h
    rw [Bool.or_eq_false_iff] at h
    obtain ⟨h1, h2⟩ := h
    unfold subG
    simp only [h1, Bool.false_eq_true, if_false]
    rw [ih h2]

/-- The suffix substitutions only ever cut the string off: their
result is a prefix of the input. -/
theorem subG_eq_take (cls : Char → Bool) (chk : List Char → Bool)
    (l : List Char) : ∃ k, subG cls chk l = l.take k := by
  induction l with
  | nil => exact ⟨0, rfl⟩
  | cons a t ih =>
    unfold subG
    cases hcond : (cls a && chk (t.dropWhile cls)) with
    | true => exact ⟨0, by simp [hcond]⟩
    | false =>
      obtain ⟨k, hk⟩ := ih
      exact ⟨k + 1, by
        simp only [hcond, Bool.false_eq_true, if_false]
        rw [hk, List.take_succ_cons]⟩

/-- Monotonicity transfer of the tail check across truncation: if the
check accepts what follows the class run of a truncated list, it
accepts what follows the class run of the full list (the check only
inspects a bounded window that the truncation must then contain). -/
theorem chk_dropWhile_take (cls : Char → Bool) (chk : List Char → Bool)
    (Hchk : ∀ t s, chk t = true → chk (t ++ s) = true) :
    ∀ (l : List Char) (k : Nat),
      chk ((l.take k).dropWhile cls) = true → chk (l.dropWhile cls) = true := by
  intro l
  induction l with
  | nil =>
    intro k h
    simp only [List.take_nil] at h
    exact h
  | cons a t ih =>
    intro k h
    cases k with
    | zero =>
      simp only [List.take_zero, List.dropWhile_nil] at h
      have := Hchk [] ((a :: t).dropWhile cls) h
      simpa using this
    | succ k =>
      rw [List.take_succ_cons] at h
      cases hc : cls a with
      | true =>
        rw [List.dropWhile_cons_of_pos hc] at h
        rw [List.dropWhile_cons_of_pos hc]
        exact ih k h
      | false =>
        rw [List.dropWhile_cons_of_neg (by rw [hc]; exact Bool.false_ne_true)] at h
        rw [List.dropWhile_cons_of_neg (by rw [hc]; exact Bool.false_ne_true)]
        have hsplit : a :: t = (a :: t.take k) ++ t.drop k := by
          rw [List.cons_append, List.take_append_drop]
        rw [hsplit]
        exact Hchk _ _ h

/-- Absence of a match is preserved by truncation. -/
theorem hasMatchG_take (cls : Char → Bool) (chk : List Char → Bool)
    (Hchk : ∀ t s, chk t = true → chk (t ++ s) = true)
    (l : List Char) (k : Nat) (h : hasMatchG cls chk l = false) :
    hasMatchG cls chk (l.take k) = false := by
  induction l generalizing k with
  | nil => rw [List.take_nil]; exact h
  | cons a t ih =>
    cases k with
    | zero => rfl
    | succ k =>
      rw [List.take_succ_cons]
      unfold hasMatchG at h ⊢
      rw [Bool.or_eq_false_iff] at h ⊢
      obtain ⟨h1, h2⟩ := h
      refine ⟨?_, ih k h2⟩
      cases hc : cls a with
      | false => simp [hc]
      | true =>
        rw [hc, Bool.true_and] at h1
        rw [Bool.true_and]
        cases hk : chk ((t.take k).dropWhile cls) with
        | false => rfl
        | true =>
          rw [chk_dropWhile_take cls chk Hchk t k hk] at h1
          cases h1

/-- Absence of a match is preserved by dropping a prefix. -/
theorem hasMatchG_drop (cls : Char → Bool) (chk : List Char → Bool)
    (l : List Char) (n : Nat) (h : hasMatchG cls chk l = false) :
    hasMatchG cls chk (l.drop n) = false := by
  induction l generalizing n with
  | nil => rw [List.drop_nil]; exact h
  | cons a t ih =>
    cases n with
    | zero => exact h
    | succ n =>
      rw [List.drop_succ_cons]
      unfold hasMatchG at h
      rw [Bool.or_eq_false_iff] at h
      exact ih n h.2

/-- The output of a suffix substitution carries no further match: the
substitution deletes from the first match position to the end, and a
match inside the remaining prefix would have fired earlier. -/
theorem hasMatchG_subG (cls : Char → Bool) (chk : List Char → Bool)
    (Hchk : ∀ t s, chk t = true → chk (t ++ s) = true)
    (l : List Char) : hasMatchG cls chk (subG cls chk l) = false := by
  induction l with
  | nil => rfl
  | cons a t ih =>
    unfold subG
    cases hcond : (cls a && chk (t.dropWhile cls)) with
    | true => simp only [if_true]; rfl
    | false =>
      simp only [hcond, Bool.false_eq_true, if_false]
      unfold hasMatchG
      rw [Bool.or_eq_false_iff]
      refine ⟨?_, ih⟩
      cases hc : cls a with
      | false => simp [hc]
      | true =>
        rw [hc, Bool.true_and] at hcond
        rw [Bool.true_and]
        cases hk : chk ((subG cls chk t).dropWhile cls) with
        | false => rfl
        | true =>
          obtain ⟨k, hkk⟩ := subG_eq_take cls chk t
          rw [hkk] at hk
          rw [chk_dropWhile_take cls chk Hchk t k hk] at hcond
          cases hcond

/-- Absence of a match is preserved by `str.strip()`. -/
theorem hasMatchG_stripL (cls : Char → Bool) (chk : List Char → Bool)
    (Hchk : ∀ t s, chk t = true → chk (t ++ s) = true)
    (l : List Char) (h : hasMatchG cls chk l = false) :
    hasMatchG cls chk (stripL l) = false := by
  obtain ⟨n, k, hs⟩ := stripL_eq_drop_take l
  rw [hs]
  exact hasMatchG_take cls chk Hchk _ k (hasMatchG_drop cls chk l n h)

/-- `threeDig` only inspects the first three characters. -/
theorem threeDig_append (t s : List Char) (h : threeDig t = true) :
    threeDig (t ++ s) = true := by
  match t with
  | [] => simp [threeDig] at h
  | [a] => simp [threeDig] at h
  | [a, b] => simp [threeDig] at h
  | a :: b :: c :: rest =>
    simp only [List.cons_append]
    exact h

/-- `sixDigits` only inspects the first six characters. -/
theorem sixDigits_append (t s : List Char) (h : sixDigits t = true) :
    sixDigits (t ++ s) = true := by
  match t with
  | [] => simp [sixDigits] at h
  | [a] => simp [sixDigits] at h
  | [a, b] => simp [sixDigits] at h
  | [a, b, c] => simp [sixDigits] at h
  | [a, b, c, d] => simp [sixDigits] at h
  | [a, b, c, d, e] => simp [sixDigits] at h
  | a :: b :: c :: d :: e :: f :: rest =>
    simp only [List.cons_append]
    exact h

/-- `checkS3` only inspects a bounded window at the front. -/
theorem checkS3_append (t s : List Char) (h : checkS3 t = true) :
    checkS3 (t ++ s) = true := by
  match t with
  | [] => simp [checkS3, sixDigits] at h
  | [a] => simp [checkS3, sixDigits] at h
  | a :: b :: rest =>
    simp only [List.cons_append]
    unfold checkS3 at h ⊢
    dsimp only at h ⊢
    simp only [Bool.or_eq_true, Bool.and_eq_true] at h ⊢
    rcases h with (⟨⟨ha, hb⟩, hd⟩ | ⟨ha, hd⟩) | hd
    · exact Or.inl (Or.inl ⟨⟨ha, hb⟩, sixDigits_append rest s hd⟩)
    · refine Or.inl (Or.inr ⟨ha, ?_⟩)
      have := sixDigits_append (b :: rest) s hd
      simpa using this
    · refine Or.inr ?_
      have := sixDigits_append (a :: b :: rest) s hd
      simpa using this

/-- The prefix substitution only removes a prefix: its result is a
`drop`. -/
theorem sub1_eq_drop (l : List Char) : ∃ n, sub1 l = l.drop n := by
  have eat : ∀ (y : List Char), ∃ m, eatDigitsSpaces y = y.drop m := by
    intro y
    obtain ⟨i, hi⟩ := dropWhile_eq_drop isDigit09 y
    obtain ⟨j, hj⟩ := dropWhile_eq_drop pyIsSpace (y.dropWhile isDigit09)
    refine ⟨i + j, ?_⟩
    unfold eatDigitsSpaces
    rw [hj, hi, List.drop_drop]
  cases l with
  | nil => exact ⟨0, rfl⟩
  | cons a rest =>
    unfold sub1
    dsimp only
    cases ha : isUpperAZ a with
    | false =>
      simp only [Bool.false_eq_true, if_false]
      cases hd : isDigit09 a with
      | false => exact ⟨0, by simp⟩
      | true =>
        simp only [if_true]
        exact eat (a :: rest)
    | true =>
      simp only [if_true]
      cases rest with
      | nil => exact ⟨0, rfl⟩
      | cons b rest2 =>
        dsimp only
        cases hb : isUpperAZ b with
        | false =>
          simp only [Bool.false_eq_true, if_false]
          cases hd : isDigit09 b with
          | false => exact ⟨0, by simp⟩
          | true =>
            simp only [if_true]
            obtain ⟨m, hm⟩ := eat (b :: rest2)
            exact ⟨m + 1, by rw [hm]; rfl⟩
        | true =>
          simp only [if_true]
          cases rest2 with
          | nil => exact ⟨0, rfl⟩
          | cons c rest3 =>
            dsimp only
            cases hd : isDigit09 c with
            | false => exact ⟨0, by simp⟩
            | true =>
              simp only [if_true]
              obtain ⟨m, hm⟩ := eat (c :: rest3)
              exact ⟨m + 2, by rw [hm]; rfl⟩

/-- The normalized reference carries no further match of the first
suffix pattern. -/
theorem normalizeRefL_no_m2 (l : List Char) :
    hasMatchG isCls threeDig (normalizeRefL l) = false := by
  unfold normalizeRefL sub2 sub3
  apply hasMatchG_stripL isCls threeDig threeDig_append
  obtain ⟨k, hk⟩ :=
    subG_eq_take pyIsSpace checkS3 (stripL (subG isCls threeDig (stripL (sub1 l))))
  rw [hk]
  apply hasMatchG_take isCls threeDig threeDig_append
  apply hasMatchG_stripL isCls threeDig threeDig_append
  exact hasMatchG_subG isCls threeDig threeDig_append _

/-- The normalized reference carries no further match of the second
suffix pattern. -/
theorem normalizeRefL_no_m3 (l : List Char) :
    hasMatchG pyIsSpace checkS3 (normalizeRefL l) = false := by
  unfold normalizeRefL sub3
  apply hasMatchG_stripL pyIsSpace checkS3 checkS3_append
  exact hasMatchG_subG pyIsSpace checkS3 checkS3_append _

/-- The normalized reference is already stripped. -/
theorem normalizeRefL_stripped (l : List Char) :
    stripL (normalizeRefL l) = normalizeRefL l := by
  unfold normalizeRefL
  rw [stripL_stripL]

/-- C5 counterexample: the normalization is not idempotent: on
`12 34 John` it strips the leading `12` and leaves `34 John`, and a
second application strips the newly exposed `34` as well. -/
theorem spec_c5_counterexample :
    normalizeRef (normalizeRef "12 34 John") ≠ normalizeRef "12 34 John" := by decide

/-- List-level conditional idempotence: once the prefix pattern no
longer fires on the normal form, the whole normalization fixes it. -/
theorem normalizeRefL_idem (l : List Char)
    (h1 : sub1 (normalizeRefL l) = normalizeRefL l) :
    normalizeRefL (normalizeRefL l) = normalizeRefL l := by
  have hstrip : stripL (normalizeRefL l) = normalizeRefL l :=
    normalizeRefL_stripped l
  have h2 : subG isCls threeDig (normalizeRefL l) = normalizeRefL l :=
    subG_of_no_match _ _ _ (normalizeRefL_no_m2 l)
  have h3 : subG pyIsSpace checkS3 (normalizeRefL l) = normalizeRefL l :=
    subG_of_no_match _ _ _ (normalizeRefL_no_m3 l)
  set n := normalizeRefL l with hn
  show stripL (sub3 (stripL (sub2 (stripL (sub1 n))))) = n
  rw [h1, hstrip]
  show stripL (subG pyIsSpace checkS3 (stripL (subG isCls threeDig n))) = n
  rw [h2, hstrip, h3, hstrip]

/-- C5 amended: the suffix-stripping steps can never fire again on
the normalization's own output, so the normalization is idempotent on
exactly those inputs whose normal form is not itself started by an
employee-code prefix (0-2 uppercase letters followed by a digit);
when the first pass exposes such a prefix, a second application
strips it too. -/
theorem spec_c5 (s : String)
    (h : sub1 (normalizeRef s).data = (normalizeRef s).data) :
    normalizeRef (normalizeRef s) = normalizeRef s := by
  have key : normalizeRefL (normalizeRefL s.data) = normalizeRefL s.data :=
    normalizeRefL_idem s.data h
  unfold normalizeRef
  dsimp only
  exact congrArg String.mk key

/-- C5 witness: a name-shaped reference is a fixed point of the
normalization. -/
theorem spec_c5_witness :
    normalizeRef (normalizeRef "Anna Lind") = normalizeRef "Anna Lind" :=
  spec_c5 "Anna Lind" (by decide)
